import Mathlib

/-!
# Verification of the media-consumption-tracker core

A shallow embedding of the validation core (`schemas/index.js`) and the
collection reducers (`app/page.js`) of the happiness/media tracker, with
theorems settling the specification's claims about them.

JavaScript's dynamically typed values are modelled by `JValue`; records are
association lists in insertion order (matching `Object.entries`).  Numbers
are modelled as exact rationals (`Rat`): every numeric value the claims
exercise (integers and halves such as 1.5, 30.5) is represented exactly by
an IEEE double, and the validator only observes `Number.isInteger`,
ordering against integer bounds, and decimal printing, all of which agree
with the rational model on those values.
-/

/-- A JavaScript value, as observed by the validator: strings, numbers,
booleans, `null` and `undefined`. -/
inductive JValue where
  | vStr (s : String)
  | vNum (q : Rat)
  | vBool (b : Bool)
  | vNull
  | vUndefined
deriving DecidableEq, Repr

/-- `typeof value === 'string'`. -/
def isStr : JValue → Bool
  | .vStr _ => true
  | _ => false

/-- `Number.isInteger(value)`: true only for numbers with no fractional
part (`NaN` and non-numbers give false). -/
def isIntegerNum : JValue → Bool
  | .vNum q => q.den == 1
  | _ => false

/-- JavaScript truthiness, used by `id || generateUUID()`. -/
def jsTruthy : JValue → Bool
  | .vStr s => !(s == "")
  | .vNum q => !(q == 0)
  | .vBool b => b
  | .vNull => false
  | .vUndefined => false

/-- JavaScript `ToNumber` on the fragment the validator's relational
comparisons (`value < minimum`, `value > maximum`) can meet: numbers are
themselves, booleans and `null` coerce to 0 or 1, `undefined` is `NaN`
(modelled as `none`, making every comparison false), and strings coerce
through decimal-integer parsing (non-numeric strings are `NaN`). -/
def toNum : JValue → Option Rat
  | .vNum q => some q
  | .vBool true => some 1
  | .vBool false => some 0
  | .vNull => some 0
  | .vUndefined => none
  | .vStr s => if s = "" then some 0 else
      match s.toInt? with
      | some n => some (n : Rat)
      | none => none

/-- `value < bound` with JavaScript numeric coercion (`NaN` compares false). -/
def jlt (v : JValue) (bound : Int) : Bool :=
  match toNum v with
  | some q => decide (q < (bound : Rat))
  | none => false

/-- `value > bound` with JavaScript numeric coercion (`NaN` compares false). -/
def jgt (v : JValue) (bound : Int) : Bool :=
  match toNum v with
  | some q => decide ((bound : Rat) < q)
  | none => false

/-- The decimal digit character for `d` (callers always pass `d < 10`). -/
def digitChar (d : Nat) : Char :=
  match d with
  | 0 => '0' | 1 => '1' | 2 => '2' | 3 => '3' | 4 => '4'
  | 5 => '5' | 6 => '6' | 7 => '7' | 8 => '8' | _ => '9'

/-- Decimal digits of `n`, most significant first; the first argument is
structural-recursion fuel (any fuel `≥ n` is exact). -/
def natDigs : Nat → Nat → List Char
  | 0, _ => []
  | _ + 1, 0 => []
  | f + 1, n + 1 => natDigs f ((n + 1) / 10) ++ [digitChar ((n + 1) % 10)]

/-- Decimal string of a natural number, as JavaScript prints it. -/
def natStr (n : Nat) : String :=
  if n = 0 then "0" else ⟨natDigs n n⟩

/-- Decimal string of an integer, as JavaScript template interpolation
`${n}` prints an integral number. -/
def intStr (n : Int) : String :=
  if n < 0 then "-" ++ natStr n.natAbs else natStr n.natAbs

/-- Decimal digits after the point of the fraction `n / d` (`n < d`),
truncated at the fuel bound; every double a claim exercises terminates
well within it. -/
def fracDigits : Nat → Nat → Nat → List Char
  | 0, _, _ => []
  | _ + 1, 0, _ => []
  | f + 1, n + 1, d => digitChar ((n + 1) * 10 / d) :: fracDigits f ((n + 1) * 10 % d) d

/-- Decimal string of a number, as JavaScript `String(n)` prints it. -/
def numToStr (q : Rat) : String :=
  if q.den = 1 then intStr q.num
  else (if q.num < 0 then "-" else "") ++ natStr (q.num.natAbs / q.den) ++ "." ++
    ⟨fracDigits 30 (q.num.natAbs % q.den) q.den⟩

/-- JavaScript string coercion, as applied by `RegExp.prototype.test` to a
non-string argument. -/
def jToString : JValue → String
  | .vStr s => s
  | .vNum q => numToStr q
  | .vBool true => "true"
  | .vBool false => "false"
  | .vNull => "null"
  | .vUndefined => "undefined"

/-- The regular expressions occurring in the repository's schemas.  Only
the date shape is needed. -/
inductive SchemaPattern where
  | dateYMD
deriving DecidableEq, Repr

/-- Modelled from the spec: the date pattern of `schemas/happiness.json`
and `schemas/media.json` (the JSON files themselves are not under `src/`).
It accepts exactly the 10-character `YYYY-MM-DD` digit shape the spec
describes and the repository's tests exercise. -/
def matchesDateYMD (s : String) : Bool :=
  match s.data with
  | [y1, y2, y3, y4, s1, m1, m2, s2, d1, d2] =>
    y1.isDigit && y2.isDigit && y3.isDigit && y4.isDigit && (s1 == '-') &&
    m1.isDigit && m2.isDigit && (s2 == '-') && d1.isDigit && d2.isDigit
  | _ => false

/-- Anchored test of a schema pattern against a string. -/
def patternTest : SchemaPattern → String → Bool
  | .dateYMD, s => matchesDateYMD s

/-- One property entry of a schema: `{type, enum?, pattern?, minimum?, maximum?}`. -/
structure SchemaProp where
  type : String
  enum : Option (List String)
  pattern : Option SchemaPattern
  minimum : Option Int
  maximum : Option Int
deriving DecidableEq, Repr

/-- A declarative schema: `required`, `properties`, `additionalProperties`. -/
structure Schema where
  required : Option (List String)
  properties : List (String × SchemaProp)
  additionalProperties : Option Bool
deriving DecidableEq, Repr

/-- A record under validation: fields in insertion order, as
`Object.entries` iterates them. -/
def JRecord := List (String × JValue)
deriving instance DecidableEq, Repr for JRecord

/-- `schema.properties?.[key]`. -/
def lookupProp (props : List (String × SchemaProp)) (key : String) : Option SchemaProp :=
  match props with
  | [] => none
  | (k, p) :: rest => if k = key then some p else lookupProp rest key

/-- `Array.prototype.join(', ')`. -/
def joinComma : List String → String
  | [] => ""
  | [x] => x
  | x :: rest => x ++ ", " ++ joinComma rest

/-- The errors `validateData` pushes for one `(key, value)` pair of the
record: property lookup and additional-properties policy, then the
type, enum, pattern and range checks, in the source's order. -/
def checkKey (schema : Schema) (key : String) (value : JValue) : List String :=
  match lookupProp schema.properties key with
  | none =>
    if schema.additionalProperties == some false then
      ["Additional property not allowed: " ++ key]
    else []
  | some prop =>
    (if prop.type == "string" && !(isStr value) then
      ["Field " ++ key ++ " must be a string"]
     else if prop.type == "integer" && !(isIntegerNum value) then
      ["Field " ++ key ++ " must be an integer"]
     else []) ++
    (match prop.enum with
     | some allowed =>
       if prop.type == "string" then
         (if (match value with | .vStr s => allowed.contains s | _ => false) then []
          else ["Field " ++ key ++ " must be one of: " ++ joinComma allowed])
       else []
     | none => []) ++
    (match prop.pattern with
     | some pat =>
       if prop.type == "string" then
         (if patternTest pat (jToString value) then []
          else ["Field " ++ key ++ " does not match required pattern"])
       else []
     | none => []) ++
    (if prop.type == "integer" then
       (match prop.minimum with
        | some m => if jlt value m then ["Field " ++ key ++ " must be >= " ++ intStr m] else []
        | none => []) ++
       (match prop.maximum with
        | some m => if jgt value m then ["Field " ++ key ++ " must be <= " ++ intStr m] else []
        | none => [])
     else [])

/-- The errors pushed by the required-fields loop of `validateData`. -/
def requiredErrors (schema : Schema) (data : JRecord) : List String :=
  match schema.required with
  | none => []
  | some req =>
    req.foldl
      (fun acc field =>
        if data.any (fun kv => kv.1 == field) then acc
        else acc ++ ["Missing required field: " ++ field])
      []

/-- The result shape of `validateData`: `{isValid, errors}`. -/
structure ValidationResult where
  isValid : Bool
  errors : List String
deriving DecidableEq, Repr

/-- `validateData(data, schema)` from `schemas/index.js`: the required
loop, then the per-key loop over `Object.entries(data)`, accumulating
errors into one array; `isValid` is `errors.length === 0`. -/
def validateData (data : JRecord) (schema : Schema) : ValidationResult :=
  let errs := data.foldl (fun acc kv => acc ++ checkKey schema kv.1 kv.2) (requiredErrors schema data)
  { isValid := errs.isEmpty, errors := errs }

/-- The concatenation of each key's errors in record order — the
specification-shaped decomposition that `validateData`'s accumulating
loop is proved equal to. -/
def allKeyErrors (schema : Schema) : JRecord → List String
  | [] => []
  | kv :: rest => checkKey schema kv.1 kv.2 ++ allKeyErrors schema rest

/-- Modelled from the spec: `schemas/happiness.json` is not under `src/`.
Per the spec's data model, `date` is a string constrained to the
`YYYY-MM-DD` pattern and `happiness` an integer in `[-2, 2]`; both are
required. -/
def happinessSchema : Schema :=
  { required := some ["date", "happiness"]
    properties :=
      [("date", { type := "string", enum := none, pattern := some .dateYMD,
                  minimum := none, maximum := none }),
       ("happiness", { type := "integer", enum := none, pattern := none,
                       minimum := some (-2), maximum := some 2 })]
    additionalProperties := none }

/-- Modelled from the spec: `schemas/media.json` is not under `src/`.
Per the spec's data model, `date` is a `YYYY-MM-DD` string, `type` an
enum of {book, video, podcast, music}, `duration` a positive integer
(minimum 1), and `id` a string; `title` is display-only and not
schema-enforced, so additional properties are permitted. -/
def mediaSchema : Schema :=
  { required := some ["date", "type", "duration"]
    properties :=
      [("id", { type := "string", enum := none, pattern := none,
                minimum := none, maximum := none }),
       ("date", { type := "string", enum := none, pattern := some .dateYMD,
                  minimum := none, maximum := none }),
       ("type", { type := "string", enum := some ["book", "video", "podcast", "music"],
                  pattern := none, minimum := none, maximum := none }),
       ("duration", { type := "integer", enum := none, pattern := none,
                      minimum := some 1, maximum := none })]
    additionalProperties := none }

/-- `validateHappiness(data)`. -/
def validateHappiness (data : JRecord) : ValidationResult :=
  validateData data happinessSchema

/-- `validateMedia(data)`. -/
def validateMedia (data : JRecord) : ValidationResult :=
  validateData data mediaSchema

/-- The tagged result of an entry factory:
`{success: true, data}` or `{success: false, errors}`. -/
inductive CreateResult where
  | success (data : JRecord)
  | failure (errors : List String)
deriving DecidableEq, Repr

/-- `createHappinessEntry(date, happiness)`: assemble `{date, happiness}`,
validate, and tag the result. -/
def createHappinessEntry (date happiness : JValue) : CreateResult :=
  let entry : JRecord := [("date", date), ("happiness", happiness)]
  let validation := validateHappiness entry
  if validation.isValid then .success entry else .failure validation.errors

/-- `createMediaEntry(date, type, duration, id = null)`: assemble
`{id: id || generateUUID(), date, type, duration}`, validate, and tag the
result.  `generateUUID()` draws from `Math.random`, so the generated
identifier is abstracted as the `generatedId` parameter. -/
def createMediaEntry (generatedId : String) (date type duration id : JValue) : CreateResult :=
  let entry : JRecord :=
    [("id", if jsTruthy id then id else .vStr generatedId),
     ("date", date), ("type", type), ("duration", duration)]
  let validation := validateMedia entry
  if validation.isValid then .success entry else .failure validation.errors

/-- A happiness entry held by the page component: `{date, happiness}`. -/
structure HEntry where
  date : String
  happiness : Int
deriving DecidableEq, Repr

/-- A media entry held by the page component: `{id, date, type, duration}`. -/
structure MEntry where
  id : String
  date : String
  type : String
  duration : Int
deriving DecidableEq, Repr

/-- Lexicographic order on character lists by code point.  On the
`YYYY-MM-DD` strings the reducers sort, this coincides with the calendar
order that the source's `new Date(b.date) - new Date(a.date)` comparator
computes (spec §4.3 note). -/
def charListLe : List Char → List Char → Bool
  | [], _ => true
  | _ :: _, [] => false
  | a :: as, b :: bs =>
    if a.toNat < b.toNat then true
    else if b.toNat < a.toNat then false
    else charListLe as bs

/-- `a ≤ b` on strings, by code points. -/
def strLeB (a b : String) : Bool := charListLe a.data b.data

/-- The sort relation of the happiness reducers: `a` before `b` when
`a.date ≥ b.date` (newest first). -/
def hDateGe (a b : HEntry) : Prop := strLeB b.date a.date = true

instance : DecidableRel hDateGe :=
  fun a b => inferInstanceAs (Decidable (strLeB b.date a.date = true))

/-- The sort relation of the media reducers: newest first. -/
def mDateGe (a b : MEntry) : Prop := strLeB b.date a.date = true

instance : DecidableRel mDateGe :=
  fun a b => inferInstanceAs (Decidable (strLeB b.date a.date = true))

/-- `[...].sort((a, b) => new Date(b.date) - new Date(a.date))` on
happiness entries: a stable sort by date descending. -/
def hSortDesc (l : List HEntry) : List HEntry := List.insertionSort hDateGe l

/-- The same sort on media entries. -/
def mSortDesc (l : List MEntry) : List MEntry := List.insertionSort mDateGe l

/-- The collection is sorted by date descending. -/
def hSorted (l : List HEntry) : Prop := List.Sorted hDateGe l

instance (l : List HEntry) : Decidable (hSorted l) :=
  inferInstanceAs (Decidable (List.Sorted hDateGe l))

/-- The media collection is sorted by date descending. -/
def mSorted (l : List MEntry) : Prop := List.Sorted mDateGe l

instance (l : List MEntry) : Decidable (mSorted l) :=
  inferInstanceAs (Decidable (List.Sorted mDateGe l))

/-- `handleEntryAdded` (`app/page.js`): drop any entry with the new
entry's date, prepend the new entry, sort newest first. -/
def handleEntryAdded (prevEntries : List HEntry) (newEntry : HEntry) : List HEntry :=
  let filtered := prevEntries.filter (fun entry => !(entry.date == newEntry.date))
  hSortDesc (newEntry :: filtered)

/-- The delete key `` `${entry.date}-${entry.happiness}` `` built by
`handleDeleteEntries`. -/
def entryKey (entry : HEntry) : String :=
  entry.date ++ "-" ++ intStr entry.happiness

/-- `handleDeleteEntries` (`app/page.js`): build the set of key strings of
the entries to delete and keep the entries whose key is not in it. -/
def handleDeleteEntries (prevEntries entriesToDelete : List HEntry) : List HEntry :=
  let deleteSet := entriesToDelete.map entryKey
  prevEntries.filter (fun entry => !(deleteSet.contains (entryKey entry)))

/-- `handleUpdateEntry` (`app/page.js`): remove the entry matching
`oldEntry` by `(date, happiness)`, on a date change also remove any entry
occupying the new date, prepend `newEntry`, sort newest first. -/
def handleUpdateEntry (prevEntries : List HEntry) (oldEntry newEntry : HEntry) : List HEntry :=
  let filtered := prevEntries.filter
    (fun entry => !(entry.date == oldEntry.date && entry.happiness == oldEntry.happiness))
  let filteredByNewDate :=
    if !(newEntry.date == oldEntry.date) then
      filtered.filter (fun entry => !(entry.date == newEntry.date))
    else filtered
  hSortDesc (newEntry :: filteredByNewDate)

/-- `handleMediaEntriesAdded` (`app/page.js`): prepend the batch, sort. -/
def handleMediaEntriesAdded (prevMedia newMediaEntries : List MEntry) : List MEntry :=
  mSortDesc (newMediaEntries ++ prevMedia)

/-- `handleMediaEntryAdded` (`app/page.js`): prepend one entry, sort. -/
def handleMediaEntryAdded (prevMedia : List MEntry) (newEntry : MEntry) : List MEntry :=
  mSortDesc (newEntry :: prevMedia)

/-- `handleMediaEntryDeleted` (`app/page.js`): drop the entry with the
matching id. -/
def handleMediaEntryDeleted (prevMedia : List MEntry) (mediaEntry : MEntry) : List MEntry :=
  prevMedia.filter (fun media => !(media.id == mediaEntry.id))

/-- `handleMediaEntryUpdated` (`app/page.js`): replace in place each entry
whose id matches `oldEntry.id`; no re-sort. -/
def handleMediaEntryUpdated (prevMedia : List MEntry) (oldEntry newEntry : MEntry) : List MEntry :=
  prevMedia.map (fun media => if media.id == oldEntry.id then newEntry else media)

/-- `handleDeleteMediaEntries` (`app/page.js`): keep the entries whose id
is not in the deletion set. -/
def handleDeleteMediaEntries (prevMedia entriesToDelete : List MEntry) : List MEntry :=
  let deleteSet := entriesToDelete.map (fun entry => entry.id)
  prevMedia.filter (fun entry => !(deleteSet.contains entry.id))

/-- Deletion keyed by equality of the `(date, happiness)` pair itself —
the spec's words for the delete law (`C \ S` keyed by the pair), stated
as a second definition to compare `handleDeleteEntries` against. -/
def pairDelete (prevEntries entriesToDelete : List HEntry) : List HEntry :=
  prevEntries.filter
    (fun entry =>
      !(entriesToDelete.any (fun s => s.date == entry.date && s.happiness == entry.happiness)))

/-- At most one entry per distinct date: the dates are pairwise distinct. -/
def uniqueDates (entries : List HEntry) : Prop :=
  (entries.map (fun entry => entry.date)).Nodup

instance (l : List HEntry) : Decidable (uniqueDates l) :=
  inferInstanceAs (Decidable (List.Nodup _))

/-- Value of a big-endian digit character list, inverse to the decimal
printer. -/
def digitVal (c : Char) : Nat := c.toNat - 48

/-- Numeric value of a big-endian list of digit characters. -/
def digitsVal (cs : List Char) : Nat :=
  cs.foldl (fun acc c => 10 * acc + digitVal c) 0

theorem charListLe_total : ∀ x y : List Char, charListLe x y = true ∨ charListLe y x = true := by
  intro x
  induction x with
  | nil => intro y; left; rfl
  | cons c cs ih =>
    intro y
    cases y with
    | nil => right; rfl
    | cons d ds =>
      rcases Nat.lt_trichotomy c.toNat d.toNat with h | h | h
      · left; simp [charListLe, h]
      · have hcd : ¬ c.toNat < d.toNat := by omega
        have hdc : ¬ d.toNat < c.toNat := by omega
        cases ih ds with
        | inl hh => left; simp [charListLe, hcd, hdc, hh]
        | inr hh => right; simp [charListLe, hcd, hdc, hh]
      · right; simp [charListLe, h]

theorem charListLe_trans : ∀ x y z : List Char,
    charListLe x y = true → charListLe y z = true → charListLe x z = true := by
  intro x
  induction x with
  | nil => intro y z _ _; rfl
  | cons c cs ih =>
    intro y z hxy hyz
    cases y with
    | nil => simp [charListLe] at hxy
    | cons d ds =>
      cases z with
      | nil => simp [charListLe] at hyz
      | cons e es =>
        simp only [charListLe] at hxy hyz ⊢
        split_ifs at hxy hyz ⊢ <;> try rfl
        all_goals (try omega)
        all_goals exact ih ds es hxy hyz

instance : IsTotal HEntry hDateGe :=
  ⟨fun a b => charListLe_total b.date.data a.date.data⟩

instance : IsTrans HEntry hDateGe :=
  ⟨fun _ _ _ h1 h2 => charListLe_trans _ _ _ h2 h1⟩

instance : IsTotal MEntry mDateGe :=
  ⟨fun a b => charListLe_total b.date.data a.date.data⟩

instance : IsTrans MEntry mDateGe :=
  ⟨fun _ _ _ h1 h2 => charListLe_trans _ _ _ h2 h1⟩

theorem string_data_inj {a b : String} (h : a.data = b.data) : a = b := by
  cases a; cases b; exact congrArg String.mk h

theorem digitVal_digitChar (d : Nat) (h : d < 10) : digitVal (digitChar d) = d := by
  interval_cases d <;> rfl

theorem digitChar_isDigit (d : Nat) : (digitChar d).isDigit = true := by
  unfold digitChar
  split <;> rfl

theorem digitsVal_append (cs : List Char) (c : Char) :
    digitsVal (cs ++ [c]) = 10 * digitsVal cs + digitVal c := by
  simp [digitsVal, List.foldl_append]

theorem digitsVal_natDigs : ∀ f n : Nat, n ≤ f → digitsVal (natDigs f n) = n := by
  intro f
  induction f with
  | zero =>
    intro n h
    have h0 : n = 0 := Nat.le_zero.mp h
    subst h0; rfl
  | succ f ih =>
    intro n h
    match n with
    | 0 => rfl
    | m + 1 =>
      have hdiv : (m + 1) / 10 ≤ f := by
        have h1 : (m + 1) / 10 < m + 1 := Nat.div_lt_self (Nat.succ_pos m) (by omega)
        omega
      have hmod : (m + 1) % 10 < 10 := Nat.mod_lt _ (by omega)
      calc digitsVal (natDigs (f + 1) (m + 1))
          = digitsVal (natDigs f ((m + 1) / 10) ++ [digitChar ((m + 1) % 10)]) := rfl
        _ = 10 * digitsVal (natDigs f ((m + 1) / 10)) + digitVal (digitChar ((m + 1) % 10)) :=
            digitsVal_append _ _
        _ = 10 * ((m + 1) / 10) + (m + 1) % 10 := by
            rw [ih _ hdiv, digitVal_digitChar _ hmod]
        _ = m + 1 := Nat.div_add_mod (m + 1) 10

theorem natDigs_digits : ∀ f n : Nat, ∀ c ∈ natDigs f n, c.isDigit = true := by
  intro f
  induction f with
  | zero => intro n c hc; simp [natDigs] at hc
  | succ f ih =>
    intro n c hc
    match n with
    | 0 => simp [natDigs] at hc
    | m + 1 =>
      rw [show natDigs (f + 1) (m + 1)
          = natDigs f ((m + 1) / 10) ++ [digitChar ((m + 1) % 10)] from rfl] at hc
      rcases List.mem_append.mp hc with h | h
      · exact ih _ c h
      · rw [List.mem_singleton.mp h]; exact digitChar_isDigit _

theorem natStr_digits (n : Nat) : ∀ c ∈ (natStr n).data, c.isDigit = true := by
  unfold natStr
  split
  · intro c hc
    have hc0 : c = '0' := by simpa using hc
    rw [hc0]; rfl
  · intro c hc
    exact natDigs_digits _ _ c hc

theorem natStr_inj {a b : Nat} (h : natStr a = natStr b) : a = b := by
  have hd := congrArg String.data h
  unfold natStr at hd
  by_cases ha : a = 0 <;> by_cases hb : b = 0
  · omega
  · exfalso
    rw [if_pos ha, if_neg hb] at hd
    have hd2 : ("0" : String).data = natDigs b b := hd
    have hv : digitsVal (natDigs b b) = b := digitsVal_natDigs b b le_rfl
    rw [← hd2] at hv
    have h0 : digitsVal (("0" : String).data) = 0 := rfl
    omega
  · exfalso
    rw [if_neg ha, if_pos hb] at hd
    have hd2 : natDigs a a = ("0" : String).data := hd
    have hv : digitsVal (natDigs a a) = a := digitsVal_natDigs a a le_rfl
    rw [hd2] at hv
    have h0 : digitsVal (("0" : String).data) = 0 := rfl
    omega
  · rw [if_neg ha, if_neg hb] at hd
    have h1 : digitsVal (natDigs a a) = a := digitsVal_natDigs a a le_rfl
    have h2 : digitsVal (natDigs b b) = b := digitsVal_natDigs b b le_rfl
    rw [show ((⟨natDigs a a⟩ : String)).data = natDigs a a from rfl,
      show ((⟨natDigs b b⟩ : String)).data = natDigs b b from rfl] at hd
    rw [hd] at h1
    omega

theorem intStr_inj {a b : Int} (h : intStr a = intStr b) : a = b := by
  unfold intStr at h
  by_cases ha : a < 0 <;> by_cases hb : b < 0
  · rw [if_pos ha, if_pos hb] at h
    have hd := congrArg String.data h
    rw [String.data_append, String.data_append] at hd
    have hds : (natStr a.natAbs).data = (natStr b.natAbs).data := by simpa using hd
    have := natStr_inj (string_data_inj hds)
    omega
  · exfalso
    rw [if_pos ha, if_neg hb] at h
    have hd := congrArg String.data h
    rw [String.data_append] at hd
    have hm : '-' ∈ (natStr b.natAbs).data := by
      rw [← hd]; simp
    have := natStr_digits b.natAbs '-' hm
    exact absurd this (by decide)
  · exfalso
    rw [if_neg ha, if_pos hb] at h
    have hd := congrArg String.data h
    rw [String.data_append] at hd
    have hm : '-' ∈ (natStr a.natAbs).data := by
      rw [hd]; simp
    have := natStr_digits a.natAbs '-' hm
    exact absurd this (by decide)
  · rw [if_neg ha, if_neg hb] at h
    have := natStr_inj h
    omega

theorem matchesDateYMD_length {s : String} (h : matchesDateYMD s = true) :
    s.data.length = 10 := by
  unfold matchesDateYMD at h
  split at h
  · next heq => rw [heq]; rfl
  · exact absurd h (by simp)

theorem entryKey_inj {e₁ e₂ : HEntry} (h₁ : matchesDateYMD e₁.date = true)
    (h₂ : matchesDateYMD e₂.date = true) (h : entryKey e₁ = entryKey e₂) : e₁ = e₂ := by
  unfold entryKey at h
  have hd := congrArg String.data h
  rw [String.data_append, String.data_append, String.data_append, String.data_append] at hd
  have hd' : e₁.date.data ++ ('-' :: (intStr e₁.happiness).data)
      = e₂.date.data ++ ('-' :: (intStr e₂.happiness).data) := by
    simpa [List.append_assoc] using hd
  obtain ⟨hdate, hrest⟩ := List.append_inj hd'
    (by rw [matchesDateYMD_length h₁, matchesDateYMD_length h₂])
  have hnum : (intStr e₁.happiness).data = (intStr e₂.happiness).data :=
    (List.cons.injEq _ _ _ _ ▸ hrest).2
  have hh : e₁.happiness = e₂.happiness := intStr_inj (string_data_inj hnum)
  have hdd : e₁.date = e₂.date := string_data_inj hdate
  cases e₁; cases e₂
  simp_all

theorem foldl_append_errs (schema : Schema) :
    ∀ (data : JRecord) (init : List String),
      data.foldl (fun acc kv => acc ++ checkKey schema kv.1 kv.2) init
        = init ++ allKeyErrors schema data := by
  intro data
  induction data with
  | nil => intro init; simp [allKeyErrors, List.foldl]
  | cons kv rest ih =>
    intro init
    show (rest.foldl _ (init ++ checkKey schema kv.1 kv.2)) = _
    rw [ih, allKeyErrors, List.append_assoc]

theorem validateData_errors (data : JRecord) (schema : Schema) :
    (validateData data schema).errors = requiredErrors schema data ++ allKeyErrors schema data :=
  foldl_append_errs schema data (requiredErrors schema data)

theorem validateData_isValid (data : JRecord) (schema : Schema) :
    (validateData data schema).isValid = (validateData data schema).errors.isEmpty := rfl

theorem validateHappiness_errors (d h : JValue) :
    (validateHappiness [("date", d), ("happiness", h)]).errors =
      checkKey happinessSchema "date" d ++ checkKey happinessSchema "happiness" h := by
  rw [validateHappiness, validateData_errors]
  rw [show requiredErrors happinessSchema [("date", d), ("happiness", h)] = [] from rfl]
  simp [allKeyErrors]

theorem intStr_neg_two : intStr (-2) = "-2" := by decide

theorem intStr_two : intStr 2 = "2" := by decide

theorem checkKey_happiness_date (v : JValue) :
    checkKey happinessSchema "date" v =
      (if isStr v then [] else ["Field date must be a string"]) ++
      (if matchesDateYMD (jToString v) then [] else
        ["Field date does not match required pattern"]) := by
  cases hv : isStr v <;>
    simp [checkKey, lookupProp, happinessSchema, patternTest, hv]

theorem checkKey_happiness_hap (v : JValue) :
    checkKey happinessSchema "happiness" v =
      (if isIntegerNum v then [] else ["Field happiness must be an integer"]) ++
      ((if jlt v (-2) then ["Field happiness must be >= -2"] else []) ++
       (if jgt v 2 then ["Field happiness must be <= 2"] else [])) := by
  cases hv : isIntegerNum v <;>
    simp [checkKey, lookupProp, happinessSchema, hv, intStr_neg_two, intStr_two]

theorem validateHappiness_isValid_false {d h : JValue}
    (hne : (validateHappiness [("date", d), ("happiness", h)]).errors ≠ []) :
    (validateHappiness [("date", d), ("happiness", h)]).isValid = false := by
  have hiv := validateData_isValid [("date", d), ("happiness", h)] happinessSchema
  rw [show validateHappiness [("date", d), ("happiness", h)]
      = validateData [("date", d), ("happiness", h)] happinessSchema from rfl]
  rw [hiv]
  cases herrs : (validateData [("date", d), ("happiness", h)] happinessSchema).errors with
  | nil =>
    exact absurd (by rw [show validateHappiness [("date", d), ("happiness", h)]
      = validateData [("date", d), ("happiness", h)] happinessSchema from rfl]; exact herrs) hne
  | cons x xs => rfl

theorem createHappinessEntry_failure {d h : JValue} {msg : String}
    (hmem : msg ∈ checkKey happinessSchema "date" d ++ checkKey happinessSchema "happiness" h) :
    ∃ errs, createHappinessEntry d h = .failure errs ∧ msg ∈ errs := by
  have herr := validateHappiness_errors d h
  have hne : (validateHappiness [("date", d), ("happiness", h)]).errors ≠ [] := by
    rw [herr]; exact List.ne_nil_of_mem hmem
  have hval := validateHappiness_isValid_false hne
  refine ⟨(validateHappiness [("date", d), ("happiness", h)]).errors, ?_, ?_⟩
  · show (if (validateHappiness [("date", d), ("happiness", h)]).isValid then
        CreateResult.success [("date", d), ("happiness", h)]
      else CreateResult.failure (validateHappiness [("date", d), ("happiness", h)]).errors) = _
    rw [hval]; rfl
  · rw [herr]; exact hmem

theorem createHappinessEntry_cases (d h : JValue) :
    (∃ r, createHappinessEntry d h = .success r) ∨
      (∃ errs, createHappinessEntry d h = .failure errs ∧ errs ≠ []) := by
  cases hv : (validateHappiness [("date", d), ("happiness", h)]).isValid
  · right
    refine ⟨(validateHappiness [("date", d), ("happiness", h)]).errors, ?_, ?_⟩
    · show (if (validateHappiness [("date", d), ("happiness", h)]).isValid then
          CreateResult.success [("date", d), ("happiness", h)]
        else CreateResult.failure (validateHappiness [("date", d), ("happiness", h)]).errors) = _
      rw [hv]; rfl
    · intro hnil
      have hiv := validateData_isValid [("date", d), ("happiness", h)] happinessSchema
      rw [show validateHappiness [("date", d), ("happiness", h)]
          = validateData [("date", d), ("happiness", h)] happinessSchema from rfl] at hv hnil
      rw [hnil] at hiv
      rw [hv] at hiv
      exact absurd hiv.symm (by decide)
  · left
    refine ⟨[("date", d), ("happiness", h)], ?_⟩
    show (if (validateHappiness [("date", d), ("happiness", h)]).isValid then
        CreateResult.success [("date", d), ("happiness", h)]
      else CreateResult.failure (validateHappiness [("date", d), ("happiness", h)]).errors) = _
    rw [hv]; rfl


theorem if_result_cases (entry : JRecord) (v : ValidationResult)
    (hco : v.isValid = v.errors.isEmpty) :
    (∃ r, (if v.isValid then CreateResult.success entry else CreateResult.failure v.errors)
        = .success r) ∨
    (∃ errs, (if v.isValid then CreateResult.success entry else CreateResult.failure v.errors)
        = .failure errs ∧ errs ≠ []) := by
  cases hv : v.isValid
  · right
    refine ⟨v.errors, by simp [hv], ?_⟩
    intro hnil
    rw [hv, hnil] at hco
    exact absurd hco (by decide)
  · left
    exact ⟨entry, by simp [hv]⟩

theorem createMediaEntry_cases (g : String) (d t dur i : JValue) :
    (∃ r, createMediaEntry g d t dur i = .success r) ∨
      (∃ errs, createMediaEntry g d t dur i = .failure errs ∧ errs ≠ []) :=
  if_result_cases
    [("id", if jsTruthy i then i else .vStr g), ("date", d), ("type", t), ("duration", dur)]
    (validateMedia
      [("id", if jsTruthy i then i else .vStr g), ("date", d), ("type", t), ("duration", dur)])
    (validateData_isValid _ _)

theorem filter_handleEntryAdded (C : List HEntry) (e : HEntry) :
    (handleEntryAdded C e).filter (fun x => x.date == e.date) = [e] := by
  have hperm : List.Perm (handleEntryAdded C e)
      (e :: C.filter (fun x => !(x.date == e.date))) := List.perm_insertionSort _ _
  have h2 : (e :: C.filter (fun x => !(x.date == e.date))).filter
      (fun x => x.date == e.date) = [e] := by
    rw [List.filter_cons]
    have he : (e.date == e.date) = true := beq_self_eq_true e.date
    rw [if_pos he]
    rw [List.filter_eq_nil_iff.mpr ?_]
    intro x hx
    have hmem := List.mem_filter.mp hx
    simp only [Bool.not_eq_true'] at hmem
    simp [hmem.2]
  have h3 := hperm.filter (fun x => x.date == e.date)
  rw [h2] at h3
  exact List.perm_singleton.mp h3

theorem uniqueDates_inj {C : List HEntry} (hU : uniqueDates C) {x y : HEntry}
    (hx : x ∈ C) (hy : y ∈ C) (hxy : x.date = y.date) : x = y :=
  List.inj_on_of_nodup_map hU hx hy hxy

theorem handleDeleteEntries_eq_pairDelete (C S : List HEntry)
    (hC : ∀ e ∈ C, matchesDateYMD e.date = true)
    (hS : ∀ e ∈ S, matchesDateYMD e.date = true) :
    handleDeleteEntries C S = pairDelete C S := by
  unfold handleDeleteEntries pairDelete
  apply List.filter_congr
  intro e he
  have hiff : entryKey e ∈ S.map entryKey ↔
      ∃ s ∈ S, s.date = e.date ∧ s.happiness = e.happiness := by
    constructor
    · intro hm
      rcases List.mem_map.mp hm with ⟨s, hsS, hkey⟩
      have hse : s = e := entryKey_inj (hS s hsS) (hC e he) hkey
      exact ⟨s, hsS, by rw [hse], by rw [hse]⟩
    · rintro ⟨s, hsS, hd, hh⟩
      have hse : s = e := by cases s; cases e; simp_all
      exact List.mem_map.mpr ⟨s, hsS, by rw [hse]⟩
  have hbool : (S.map entryKey).contains (entryKey e)
      = S.any (fun s => s.date == e.date && s.happiness == e.happiness) := by
    cases ha : S.any (fun s => s.date == e.date && s.happiness == e.happiness)
    · rw [List.any_eq_false] at ha
      have hnot : ¬ entryKey e ∈ S.map entryKey := by
        intro hm
        rcases hiff.mp hm with ⟨s, hsS, hd, hh⟩
        exact absurd (by simp [hd, hh] : (s.date == e.date && s.happiness == e.happiness) = true)
          (ha s hsS)
      simpa using hnot
    · rw [List.any_eq_true] at ha
      rcases ha with ⟨s, hsS, hs⟩
      simp only [Bool.and_eq_true, beq_iff_eq] at hs
      have hm : entryKey e ∈ S.map entryKey := hiff.mpr ⟨s, hsS, hs.1, hs.2⟩
      simpa using hm
  rw [hbool]

/-- C1: for every collection `C` and entry `e`, the add-happiness reducer
(`handleEntryAdded`) yields a collection in which exactly one entry has
date `e.date`, and that entry is `e`; in particular adding the same entry
twice, or adding two entries for the same date, leaves exactly the second
entry for that date. -/
theorem handleEntryAdded_unique_date (C : List HEntry) (e : HEntry) :
    (handleEntryAdded C e).filter (fun x => x.date == e.date) = [e] ∧
    (handleEntryAdded (handleEntryAdded C e) e).filter (fun x => x.date == e.date) = [e] ∧
    (∀ (d : String) (h1 h2 : Int),
      (handleEntryAdded (handleEntryAdded C ⟨d, h1⟩) ⟨d, h2⟩).filter (fun x => x.date == d)
        = [⟨d, h2⟩]) :=
  ⟨filter_handleEntryAdded C e, filter_handleEntryAdded _ e,
   fun d h1 h2 => filter_handleEntryAdded (handleEntryAdded C ⟨d, h1⟩) ⟨d, h2⟩⟩

/-- C4: for every date string of the `YYYY-MM-DD` shape and every integer
happiness in `[-2, 2]`, `createHappinessEntry` succeeds with exactly the
record `{date, happiness}`. -/
theorem createHappinessEntry_valid (d : String) (h : Int)
    (hd : matchesDateYMD d = true) (hlo : -2 ≤ h) (hhi : h ≤ 2) :
    createHappinessEntry (.vStr d) (.vNum (h : Rat)) =
      .success [("date", .vStr d), ("happiness", .vNum (h : Rat))] := by
  have hdate : checkKey happinessSchema "date" (.vStr d) = [] := by
    rw [checkKey_happiness_date]
    simp [isStr, jToString, hd]
  have hint : isIntegerNum (.vNum (h : Rat)) = true := by
    simp [isIntegerNum, Rat.den_intCast]
  have hjlt : jlt (.vNum (h : Rat)) (-2) = false := by
    simp only [jlt, toNum, decide_eq_false_iff_not]
    rw [not_lt]
    exact_mod_cast hlo
  have hjgt : jgt (.vNum (h : Rat)) 2 = false := by
    simp only [jgt, toNum, decide_eq_false_iff_not]
    rw [not_lt]
    exact_mod_cast hhi
  have hhap : checkKey happinessSchema "happiness" (.vNum (h : Rat)) = [] := by
    rw [checkKey_happiness_hap, hint, hjlt, hjgt]
    simp
  have herr := validateHappiness_errors (.vStr d) (.vNum (h : Rat))
  rw [hdate, hhap] at herr
  simp only [List.append_nil] at herr
  have hval : (validateHappiness
      [("date", .vStr d), ("happiness", .vNum (h : Rat))]).isValid = true := by
    have hiv := validateData_isValid
      [("date", .vStr d), ("happiness", .vNum (h : Rat))] happinessSchema
    rw [show validateHappiness [("date", .vStr d), ("happiness", .vNum (h : Rat))]
        = validateData [("date", .vStr d), ("happiness", .vNum (h : Rat))] happinessSchema
        from rfl]
    rw [hiv]
    rw [show (validateData [("date", .vStr d), ("happiness", .vNum (h : Rat))]
          happinessSchema).errors
        = (validateHappiness [("date", .vStr d), ("happiness", .vNum (h : Rat))]).errors
        from rfl]
    rw [herr]
    rfl
  simp [createHappinessEntry, hval]

/-- Witness for C4 at the concrete input `("2024-10-23", 1)`. -/
theorem createHappinessEntry_valid_witness :
    createHappinessEntry (.vStr "2024-10-23") (.vNum ((1 : Int) : Rat)) =
      .success [("date", .vStr "2024-10-23"), ("happiness", .vNum ((1 : Int) : Rat))] :=
  createHappinessEntry_valid "2024-10-23" 1 (by decide) (by decide) (by decide)

/-- C5: out-of-range happiness yields a range error, non-integer happiness
an integer type error; a date failing the `YYYY-MM-DD` pattern, and a
missing (`undefined`) date, each yield a pattern error — all with
`success: false`. -/
theorem createHappinessEntry_invalid (d : String) (q : Rat) :
    ((q < -2 ∨ 2 < q) →
      ∃ errs, createHappinessEntry (.vStr d) (.vNum q) = .failure errs ∧
        ("Field happiness must be >= -2" ∈ errs ∨ "Field happiness must be <= 2" ∈ errs)) ∧
    (q.den ≠ 1 →
      ∃ errs, createHappinessEntry (.vStr d) (.vNum q) = .failure errs ∧
        "Field happiness must be an integer" ∈ errs) ∧
    (∀ h : JValue, matchesDateYMD d = false →
      ∃ errs, createHappinessEntry (.vStr d) h = .failure errs ∧
        "Field date does not match required pattern" ∈ errs) ∧
    (∀ h : JValue,
      ∃ errs, createHappinessEntry .vUndefined h = .failure errs ∧
        "Field date does not match required pattern" ∈ errs) := by
  refine ⟨?_, ?_, ?_, ?_⟩
  · rintro (hlt | hgt)
    · have hjlt : jlt (.vNum q) (-2) = true := by
        simp only [jlt, toNum, decide_eq_true_eq]
        exact_mod_cast hlt
      obtain ⟨errs, heq, hmem⟩ := createHappinessEntry_failure
        (show ("Field happiness must be >= -2" : String)
            ∈ checkKey happinessSchema "date" (.vStr d)
              ++ checkKey happinessSchema "happiness" (.vNum q) by
          apply List.mem_append_right
          rw [checkKey_happiness_hap, hjlt]
          simp)
      exact ⟨errs, heq, Or.inl hmem⟩
    · have hjgt : jgt (.vNum q) 2 = true := by
        simp only [jgt, toNum, decide_eq_true_eq]
        exact_mod_cast hgt
      obtain ⟨errs, heq, hmem⟩ := createHappinessEntry_failure
        (show ("Field happiness must be <= 2" : String)
            ∈ checkKey happinessSchema "date" (.vStr d)
              ++ checkKey happinessSchema "happiness" (.vNum q) by
          apply List.mem_append_right
          rw [checkKey_happiness_hap, hjgt]
          simp)
      exact ⟨errs, heq, Or.inr hmem⟩
  · intro hden
    have hint : isIntegerNum (.vNum q) = false := by simp [isIntegerNum, hden]
    apply createHappinessEntry_failure
    apply List.mem_append_right
    rw [checkKey_happiness_hap, hint]
    simp
  · intro h hd
    apply createHappinessEntry_failure
    apply List.mem_append_left
    rw [checkKey_happiness_date]
    simp [isStr, jToString, hd]
  · intro h
    apply createHappinessEntry_failure
    apply List.mem_append_left
    rw [checkKey_happiness_date]
    have hu : matchesDateYMD (jToString .vUndefined) = false := by decide
    simp [isStr, hu]

/-- Witness for C5 at the concrete inputs of the spec: happiness 3
(range), happiness 1.5 (type), date `"23-10-2024"` (pattern) and a
missing date (pattern). -/
theorem createHappinessEntry_invalid_witness :
    (∃ errs, createHappinessEntry (.vStr "2024-10-23") (.vNum 3) = .failure errs ∧
      ("Field happiness must be >= -2" ∈ errs ∨ "Field happiness must be <= 2" ∈ errs)) ∧
    (∃ errs, createHappinessEntry (.vStr "2024-10-23")
        (.vNum ⟨3, 2, by decide, by decide⟩) = .failure errs ∧
      "Field happiness must be an integer" ∈ errs) ∧
    (∃ errs, createHappinessEntry (.vStr "23-10-2024") (.vNum 1) = .failure errs ∧
      "Field date does not match required pattern" ∈ errs) ∧
    (∃ errs, createHappinessEntry .vUndefined (.vNum 1) = .failure errs ∧
      "Field date does not match required pattern" ∈ errs) :=
  ⟨(createHappinessEntry_invalid "2024-10-23" 3).1 (Or.inr (by decide)),
   (createHappinessEntry_invalid "2024-10-23" ⟨3, 2, by decide, by decide⟩).2.1 (by decide),
   (createHappinessEntry_invalid "23-10-2024" 1).2.2.1 (.vNum 1) (by decide),
   (createHappinessEntry_invalid "x" 1).2.2.2 (.vNum 1)⟩

/-- C6: the media factory succeeds on `("2024-10-20", "book", 45)` with
the generated id, fails on an unknown type with the enum error listing
the allowed values, fails on duration 0 with the minimum-range error, and
fails on duration 30.5 with the integer type error. -/
theorem createMediaEntry_examples (g : String) :
    createMediaEntry g (.vStr "2024-10-20") (.vStr "book") (.vNum 45) .vNull =
      .success [("id", .vStr g), ("date", .vStr "2024-10-20"),
        ("type", .vStr "book"), ("duration", .vNum 45)] ∧
    createMediaEntry g (.vStr "2024-10-20") (.vStr "bogus") (.vNum 45) .vNull =
      .failure ["Field type must be one of: book, video, podcast, music"] ∧
    createMediaEntry g (.vStr "2024-10-20") (.vStr "book") (.vNum 0) .vNull =
      .failure ["Field duration must be >= 1"] ∧
    createMediaEntry g (.vStr "2024-10-20") (.vStr "book")
        (.vNum ⟨61, 2, by decide, by decide⟩) .vNull =
      .failure ["Field duration must be an integer"] := by
  refine ⟨?_, ?_, ?_, ?_⟩ <;> rfl

/-- C8: `validateData` accumulates — its error list is exactly the
required-field errors followed by each record field's errors in order,
one message per violated constraint, and `isValid` holds iff the error
list is empty. -/
theorem validateData_accumulates (data : JRecord) (schema : Schema) :
    (validateData data schema).errors = requiredErrors schema data ++ allKeyErrors schema data ∧
    ((validateData data schema).isValid = true ↔ (validateData data schema).errors = []) := by
  refine ⟨validateData_errors data schema, ?_⟩
  rw [validateData_isValid]
  cases herr : (validateData data schema).errors <;> simp

/-- C9: for all inputs of any type, both factories return a tagged
success/failure result (never an exception, failures carrying a nonempty
error list), and malformed input types surface as validation type
errors. -/
theorem factories_never_throw :
    (∀ d h : JValue, (∃ r, createHappinessEntry d h = .success r) ∨
      (∃ errs, createHappinessEntry d h = .failure errs ∧ errs ≠ [])) ∧
    (∀ (g : String) (d t dur i : JValue), (∃ r, createMediaEntry g d t dur i = .success r) ∨
      (∃ errs, createMediaEntry g d t dur i = .failure errs ∧ errs ≠ [])) ∧
    (∀ d h : JValue, isStr d = false →
      ∃ errs, createHappinessEntry d h = .failure errs ∧
        "Field date must be a string" ∈ errs) ∧
    (∀ d h : JValue, isIntegerNum h = false →
      ∃ errs, createHappinessEntry d h = .failure errs ∧
        "Field happiness must be an integer" ∈ errs) := by
  refine ⟨createHappinessEntry_cases, createMediaEntry_cases, ?_, ?_⟩
  · intro d h hd
    apply createHappinessEntry_failure
    apply List.mem_append_left
    rw [checkKey_happiness_date, hd]
    simp
  · intro d h hh
    apply createHappinessEntry_failure
    apply List.mem_append_right
    rw [checkKey_happiness_hap, hh]
    simp

/-- Witness for C9 at the concrete input `(null, null)`. -/
theorem factories_never_throw_witness :
    ((∃ r, createHappinessEntry .vNull .vNull = .success r) ∨
      (∃ errs, createHappinessEntry .vNull .vNull = .failure errs ∧ errs ≠ [])) ∧
    ((∃ r, createMediaEntry "gen" .vNull .vNull .vNull .vNull = .success r) ∨
      (∃ errs, createMediaEntry "gen" .vNull .vNull .vNull .vNull = .failure errs ∧ errs ≠ [])) ∧
    (∃ errs, createHappinessEntry .vNull .vNull = .failure errs ∧
      "Field date must be a string" ∈ errs) ∧
    (∃ errs, createHappinessEntry .vNull .vNull = .failure errs ∧
      "Field happiness must be an integer" ∈ errs) :=
  ⟨factories_never_throw.1 .vNull .vNull,
   factories_never_throw.2.1 "gen" .vNull .vNull .vNull .vNull,
   factories_never_throw.2.2.1 .vNull .vNull rfl,
   factories_never_throw.2.2.2 .vNull .vNull rfl⟩

/-- C2 counterexample: when `newEntry` equals `oldEntry`, the update
reducer's result still contains `oldEntry`, so the claim's "no longer
contains oldEntry" fails as universally stated. -/
theorem handleUpdateEntry_self_counterexample :
    uniqueDates [({ date := "2024-10-23", happiness := 1 } : HEntry)] ∧
    ({ date := "2024-10-23", happiness := 1 } : HEntry) ∈
      ([{ date := "2024-10-23", happiness := 1 }] : List HEntry) ∧
    ({ date := "2024-10-23", happiness := 1 } : HEntry) ∈
      handleUpdateEntry [{ date := "2024-10-23", happiness := 1 }]
        { date := "2024-10-23", happiness := 1 } { date := "2024-10-23", happiness := 1 } :=
  ⟨by decide, by decide, by decide⟩

/-- C2 (amended): for a collection with at most one entry per date
containing `oldEntry`, the update reducer preserves the one-per-date
invariant, contains `newEntry`, no longer contains `oldEntry` unless
`newEntry = oldEntry`, and on a date change removes any other entry that
occupied `newEntry.date`. -/
theorem handleUpdateEntry_invariants (C : List HEntry) (oldEntry newEntry : HEntry)
    (hU : uniqueDates C) (hmem : oldEntry ∈ C) :
    uniqueDates (handleUpdateEntry C oldEntry newEntry) ∧
    newEntry ∈ handleUpdateEntry C oldEntry newEntry ∧
    (oldEntry ≠ newEntry → oldEntry ∉ handleUpdateEntry C oldEntry newEntry) ∧
    (newEntry.date ≠ oldEntry.date →
      ∀ x ∈ C, x.date = newEntry.date → x ≠ newEntry →
        x ∉ handleUpdateEntry C oldEntry newEntry) := by
  set F1 := C.filter
    (fun entry => !(entry.date == oldEntry.date && entry.happiness == oldEntry.happiness))
    with hF1
  set F2 := if !(newEntry.date == oldEntry.date) then
      F1.filter (fun entry => !(entry.date == newEntry.date))
    else F1 with hF2
  have hperm : List.Perm (handleUpdateEntry C oldEntry newEntry) (newEntry :: F2) :=
    List.perm_insertionSort _ _
  have hmemiff : ∀ x, x ∈ handleUpdateEntry C oldEntry newEntry ↔ x = newEntry ∨ x ∈ F2 := by
    intro x
    rw [hperm.mem_iff, List.mem_cons]
  have hF1mem : ∀ x, x ∈ F1 ↔
      (x ∈ C ∧ ¬(x.date = oldEntry.date ∧ x.happiness = oldEntry.happiness)) := by
    intro x
    rw [hF1, List.mem_filter]
    simp
    tauto
  have hF2mem : ∀ x, x ∈ F2 ↔
      (x ∈ F1 ∧ (newEntry.date ≠ oldEntry.date → x.date ≠ newEntry.date)) := by
    intro x
    rw [hF2]
    by_cases hdc : newEntry.date = oldEntry.date
    · rw [if_neg (by simp [hdc])]
      simp [hdc]
    · rw [if_pos (by simp [hdc])]
      rw [List.mem_filter]
      simp [hdc]
  have hF1sub : List.Sublist F1 C := List.filter_sublist C
  have hF2sub : List.Sublist F2 C := by
    rw [hF2]
    split
    · exact (List.filter_sublist F1).trans hF1sub
    · exact hF1sub
  refine ⟨?_, ?_, ?_, ?_⟩
  · have hpm := hperm.map (fun entry => entry.date)
    rw [uniqueDates, hpm.nodup_iff, List.map_cons, List.nodup_cons]
    refine ⟨?_, ?_⟩
    · intro hmm
      rcases List.mem_map.mp hmm with ⟨x, hxF2, hxdate⟩
      rcases (hF2mem x).mp hxF2 with ⟨hxF1, himp⟩
      rcases (hF1mem x).mp hxF1 with ⟨hxC, hnp⟩
      by_cases hdc : newEntry.date = oldEntry.date
      · have hxo : x = oldEntry := uniqueDates_inj hU hxC hmem (by rw [hxdate, hdc])
        exact hnp (by rw [hxo]; exact ⟨rfl, rfl⟩)
      · exact (himp hdc) hxdate
    · exact hU.sublist (hF2sub.map _)
  · exact (hmemiff newEntry).mpr (Or.inl rfl)
  · intro hne hin
    rcases (hmemiff oldEntry).mp hin with h | h
    · exact hne h
    · rcases (hF2mem oldEntry).mp h with ⟨hF1in, _⟩
      rcases (hF1mem oldEntry).mp hF1in with ⟨_, hnp⟩
      exact hnp ⟨rfl, rfl⟩
  · intro hdc x hxC hxdate hxne hin
    rcases (hmemiff x).mp hin with h | h
    · exact hxne h
    · rcases (hF2mem x).mp h with ⟨_, himp⟩
      exact (himp hdc) hxdate

/-- Witness for the amended C2: updating `("2024-10-22", 0)` to
`("2024-10-24", 2)` in a two-entry collection. -/
theorem handleUpdateEntry_invariants_witness :
    uniqueDates (handleUpdateEntry [⟨"2024-10-23", 1⟩, ⟨"2024-10-22", 0⟩]
        ⟨"2024-10-22", 0⟩ ⟨"2024-10-24", 2⟩) ∧
    (⟨"2024-10-24", 2⟩ : HEntry) ∈ handleUpdateEntry [⟨"2024-10-23", 1⟩, ⟨"2024-10-22", 0⟩]
        ⟨"2024-10-22", 0⟩ ⟨"2024-10-24", 2⟩ ∧
    ((⟨"2024-10-22", 0⟩ : HEntry) ≠ ⟨"2024-10-24", 2⟩ →
      (⟨"2024-10-22", 0⟩ : HEntry) ∉ handleUpdateEntry [⟨"2024-10-23", 1⟩, ⟨"2024-10-22", 0⟩]
        ⟨"2024-10-22", 0⟩ ⟨"2024-10-24", 2⟩) ∧
    ((⟨"2024-10-24", 2⟩ : HEntry).date ≠ (⟨"2024-10-22", 0⟩ : HEntry).date →
      ∀ x ∈ [(⟨"2024-10-23", 1⟩ : HEntry), ⟨"2024-10-22", 0⟩],
        x.date = (⟨"2024-10-24", 2⟩ : HEntry).date → x ≠ ⟨"2024-10-24", 2⟩ →
          x ∉ handleUpdateEntry [⟨"2024-10-23", 1⟩, ⟨"2024-10-22", 0⟩]
            ⟨"2024-10-22", 0⟩ ⟨"2024-10-24", 2⟩) :=
  handleUpdateEntry_invariants [⟨"2024-10-23", 1⟩, ⟨"2024-10-22", 0⟩]
    ⟨"2024-10-22", 0⟩ ⟨"2024-10-24", 2⟩ (by decide) (by decide)

/-- C3 counterexample: the media update reducer replaces in place without
re-sorting, so updating an entry to an older date breaks the
date-descending sort invariant. -/
theorem reducer_sort_counterexample :
    mSorted [⟨"a", "2024-10-23", "book", 10⟩, ⟨"b", "2024-10-22", "book", 10⟩] ∧
    ¬ mSorted (handleMediaEntryUpdated
        [⟨"a", "2024-10-23", "book", 10⟩, ⟨"b", "2024-10-22", "book", 10⟩]
        ⟨"a", "2024-10-23", "book", 10⟩ ⟨"a", "2024-10-21", "book", 10⟩) :=
  ⟨by decide, by decide⟩

/-- C3 (amended): every reducer operation except the media update yields a
date-descending collection (the three sorting operations
unconditionally, the filtering deletions preserving sortedness); the
media update preserves sortedness when the replacement keeps the
entry's date and ids identify entries uniquely. -/
theorem reducer_sort_invariant :
    (∀ (C : List HEntry) (e : HEntry), hSorted (handleEntryAdded C e)) ∧
    (∀ (C : List HEntry) (o n : HEntry), hSorted (handleUpdateEntry C o n)) ∧
    (∀ C S : List HEntry, hSorted C → hSorted (handleDeleteEntries C S)) ∧
    (∀ M N : List MEntry, mSorted (handleMediaEntriesAdded M N)) ∧
    (∀ (M : List MEntry) (e : MEntry), mSorted (handleMediaEntryAdded M e)) ∧
    (∀ M D : List MEntry, mSorted M → mSorted (handleDeleteMediaEntries M D)) ∧
    (∀ (M : List MEntry) (e : MEntry), mSorted M → mSorted (handleMediaEntryDeleted M e)) ∧
    (∀ (M : List MEntry) (o n : MEntry), mSorted M → n.date = o.date →
      (∀ x ∈ M, x.id = o.id → x = o) → mSorted (handleMediaEntryUpdated M o n)) := by
  refine ⟨?_, ?_, ?_, ?_, ?_, ?_, ?_, ?_⟩
  · intro C e
    exact List.sorted_insertionSort hDateGe _
  · intro C o n
    exact List.sorted_insertionSort hDateGe _
  · intro C S h
    exact List.Pairwise.filter _ h
  · intro M N
    exact List.sorted_insertionSort mDateGe _
  · intro M e
    exact List.sorted_insertionSort mDateGe _
  · intro M D h
    exact List.Pairwise.filter _ h
  · intro M e h
    exact List.Pairwise.filter _ h
  · intro M o n hM hdate hid
    show List.Pairwise mDateGe (M.map (fun media => if media.id == o.id then n else media))
    rw [List.pairwise_map]
    apply List.Pairwise.imp_of_mem ?_ hM
    intro a b ha hb hab
    have hda : (if a.id == o.id then n else a).date = a.date := by
      by_cases h1 : (a.id == o.id) = true
      · rw [if_pos h1, hdate, hid a ha (by simpa using h1)]
      · rw [if_neg h1]
    have hdb : (if b.id == o.id then n else b).date = b.date := by
      by_cases h1 : (b.id == o.id) = true
      · rw [if_pos h1, hdate, hid b hb (by simpa using h1)]
      · rw [if_neg h1]
    show strLeB (if b.id == o.id then n else b).date (if a.id == o.id then n else a).date = true
    rw [hda, hdb]
    exact hab

/-- Witness for the amended C3 at small concrete collections. -/
theorem reducer_sort_invariant_witness :
    hSorted (handleEntryAdded [] ⟨"2024-10-23", 1⟩) ∧
    hSorted (handleDeleteEntries [⟨"2024-10-23", 1⟩] []) ∧
    mSorted (handleMediaEntryUpdated [⟨"a", "2024-10-23", "book", 5⟩]
      ⟨"a", "2024-10-23", "book", 5⟩ ⟨"a", "2024-10-23", "video", 9⟩) :=
  ⟨reducer_sort_invariant.1 [] ⟨"2024-10-23", 1⟩,
   reducer_sort_invariant.2.2.1 [⟨"2024-10-23", 1⟩] [] (by decide),
   reducer_sort_invariant.2.2.2.2.2.2.2 [⟨"a", "2024-10-23", "book", 5⟩]
     ⟨"a", "2024-10-23", "book", 5⟩ ⟨"a", "2024-10-23", "video", 9⟩
     (by decide) rfl (by decide)⟩

/-- C7: on collections of happiness entries (dates of the validated
`YYYY-MM-DD` shape), the batch delete keeps exactly the entries whose
`(date, happiness)` pair matches no member of the delete list, in their
original order, and deleting absent entries is a no-op. -/
theorem handleDeleteEntries_delete_law (C S : List HEntry)
    (hC : ∀ e ∈ C, matchesDateYMD e.date = true)
    (hS : ∀ e ∈ S, matchesDateYMD e.date = true) :
    handleDeleteEntries C S = pairDelete C S ∧
    ((∀ s ∈ S, ∀ e ∈ C, ¬(s.date = e.date ∧ s.happiness = e.happiness)) →
      handleDeleteEntries C S = C) := by
  have heq := handleDeleteEntries_eq_pairDelete C S hC hS
  refine ⟨heq, ?_⟩
  intro hnone
  rw [heq]
  unfold pairDelete
  apply List.filter_eq_self.mpr
  intro e he
  simp only [Bool.not_eq_true']
  rw [List.any_eq_false]
  intro s hs
  simp only [Bool.and_eq_true, beq_iff_eq, not_and]
  intro h1 h2
  exact hnone s hs e he ⟨h1, h2⟩

/-- Witness for C7 on a one-entry collection and a disjoint delete list. -/
theorem handleDeleteEntries_delete_law_witness :
    handleDeleteEntries [⟨"2024-10-23", 1⟩] [⟨"2024-10-22", 0⟩]
        = pairDelete [⟨"2024-10-23", 1⟩] [⟨"2024-10-22", 0⟩] ∧
    ((∀ s ∈ [(⟨"2024-10-22", 0⟩ : HEntry)], ∀ e ∈ [(⟨"2024-10-23", 1⟩ : HEntry)],
        ¬(s.date = e.date ∧ s.happiness = e.happiness)) →
      handleDeleteEntries [⟨"2024-10-23", 1⟩] [⟨"2024-10-22", 0⟩] = [⟨"2024-10-23", 1⟩]) :=
  handleDeleteEntries_delete_law [⟨"2024-10-23", 1⟩] [⟨"2024-10-22", 0⟩]
    (by decide) (by decide)

/-- C10: the delete reducer keys entries by the string
`date ++ "-" ++ happiness`; on entries whose dates have the validated
10-character shape this agrees exactly with deletion keyed by the
`(date, happiness)` pair, while on unvalidated entries distinct pairs can
collide on the key — `("2024-10-23-", 1)` and `("2024-10-23", -1)` share
the key `"2024-10-23--1"`, and the two deletions genuinely diverge
there. -/
theorem deleteKey_refinement (C S : List HEntry)
    (hC : ∀ e ∈ C, matchesDateYMD e.date = true)
    (hS : ∀ e ∈ S, matchesDateYMD e.date = true) :
    handleDeleteEntries C S = pairDelete C S ∧
    entryKey ⟨"2024-10-23-", 1⟩ = entryKey ⟨"2024-10-23", -1⟩ ∧
    (⟨"2024-10-23-", 1⟩ : HEntry) ≠ ⟨"2024-10-23", -1⟩ ∧
    handleDeleteEntries [⟨"2024-10-23-", 1⟩] [⟨"2024-10-23", -1⟩] = [] ∧
    pairDelete [⟨"2024-10-23-", 1⟩] [⟨"2024-10-23", -1⟩] = [⟨"2024-10-23-", 1⟩] :=
  ⟨handleDeleteEntries_eq_pairDelete C S hC hS, by decide, by decide, by decide, by decide⟩

/-- Witness for C10 on a validated one-entry collection. -/
theorem deleteKey_refinement_witness :
    handleDeleteEntries [⟨"2024-10-23", 1⟩] [] = pairDelete [⟨"2024-10-23", 1⟩] [] ∧
    entryKey ⟨"2024-10-23-", 1⟩ = entryKey ⟨"2024-10-23", -1⟩ ∧
    (⟨"2024-10-23-", 1⟩ : HEntry) ≠ ⟨"2024-10-23", -1⟩ ∧
    handleDeleteEntries [⟨"2024-10-23-", 1⟩] [⟨"2024-10-23", -1⟩] = [] ∧
    pairDelete [⟨"2024-10-23-", 1⟩] [⟨"2024-10-23", -1⟩] = [⟨"2024-10-23-", 1⟩] :=
  deleteKey_refinement [⟨"2024-10-23", 1⟩] [] (by decide) (by decide)

/-- Witness for C1 at a concrete collection and entry. -/
theorem handleEntryAdded_unique_date_witness :
    (handleEntryAdded [] ⟨"2024-10-23", 1⟩).filter
        (fun x => x.date == "2024-10-23") = [⟨"2024-10-23", 1⟩] ∧
    (∀ (d : String) (h1 h2 : Int),
      (handleEntryAdded (handleEntryAdded [] ⟨d, h1⟩) ⟨d, h2⟩).filter
          (fun x => x.date == d) = [⟨d, h2⟩]) :=
  ⟨(handleEntryAdded_unique_date [] ⟨"2024-10-23", 1⟩).1,
   (handleEntryAdded_unique_date [] ⟨"2024-10-23", 1⟩).2.2⟩

/-- Witness for C6 at a concrete generated identifier. -/
theorem createMediaEntry_examples_witness :
    createMediaEntry "123e4567-e89b-42d3-a456-426614174000"
        (.vStr "2024-10-20") (.vStr "book") (.vNum 45) .vNull =
      .success [("id", .vStr "123e4567-e89b-42d3-a456-426614174000"),
        ("date", .vStr "2024-10-20"), ("type", .vStr "book"), ("duration", .vNum 45)] ∧
    createMediaEntry "123e4567-e89b-42d3-a456-426614174000"
        (.vStr "2024-10-20") (.vStr "bogus") (.vNum 45) .vNull =
      .failure ["Field type must be one of: book, video, podcast, music"] :=
  ⟨(createMediaEntry_examples "123e4567-e89b-42d3-a456-426614174000").1,
   (createMediaEntry_examples "123e4567-e89b-42d3-a456-426614174000").2.1⟩

/-- Witness for C8 at a concrete record and schema. -/
theorem validateData_accumulates_witness :
    (validateData [("date", .vNull)] happinessSchema).errors
      = requiredErrors happinessSchema [("date", .vNull)]
        ++ allKeyErrors happinessSchema [("date", .vNull)] ∧
    ((validateData [("date", .vNull)] happinessSchema).isValid = true
      ↔ (validateData [("date", .vNull)] happinessSchema).errors = []) :=
  validateData_accumulates [("date", .vNull)] happinessSchema
